import Mathlib

set_option maxRecDepth 8000

namespace FootballTables

variable {V A : Type}

/- ===================================================================
   Shallow embedding of src/hashy_step_table.py (class HashyStepTable).

   A slot of the backing `ArrayR` is one of:
     * `None`                       -> `Slot.empty`
     * a pair `(key, value)`        -> `Slot.occupied key value`
     * the pair `(Sentinel, Sentinel)` written by `__delitem__`
                                    -> `Slot.tomb`
   The bare class object `Sentinel` itself is never stored in a slot,
   which makes the `self.array[position] is Sentinel` branch of
   `_hashy_probe` unreachable (a slot is either `None` or a tuple).
   Machine integers do not overflow here (Python ints are unbounded),
   so `Nat`/`Int` model them directly.
   =================================================================== -/

inductive Slot (V : Type) where
  | empty
  | occupied (key : String) (val : V)
  | tomb
  deriving DecidableEq, Repr

/-- An element of the lists built by `keys()` / `values()`.
`__delitem__` stores the pair `(Sentinel, Sentinel)`, so for a
tombstoned slot `keys()` appends the class object `Sentinel` itself
(`Cell.sent`), not a real key/value. -/
inductive Cell (A : Type) where
  | item (a : A)
  | sent
  deriving DecidableEq, Repr

/-- State of a `HashyStepTable`: backing array, `self.count`
(an `Int`: the source decrements it unconditionally in `__delitem__`,
so it can go negative) and the capacity ladder `self.TABLE_SIZES`. -/
structure StepState (V : Type) where
  array : List (Slot V)
  count : Int
  sizes : List Nat
  deriving DecidableEq, Repr

/-- `HashyStepTable.TABLE_SIZES` (class attribute, default ladder). -/
def TABLE_SIZES : List Nat :=
  [5, 13, 29, 53, 97, 193, 389, 769, 1543, 3079, 6151, 12289, 24593,
   49157, 98317, 196613, 393241, 786433, 1572869]

/-- `HashyStepTable.__init__`: `size_index = 0`,
`array = ArrayR(TABLE_SIZES[0])`, `count = 0`.  When the caller passes
a `sizes` list it replaces the default ladder.  (`getD 0 0` stands for
`sizes[0]`; an empty ladder would raise in Python and never occurs in
the states we study.) -/
def initStep (V : Type) (sizes : List Nat) : StepState V :=
  { array := List.replicate (sizes.getD 0 0) Slot.empty
    count := 0
    sizes := sizes }

/-- `HashyStepTable.hash` with `HASH_BASE = 31`:
`value = 0; a = 31415; for char in key: value = (ord(char) + a*value) % table_size; a = a*31 % (table_size - 1)`. -/
def hashStep (tableSize : Nat) (key : String) : Nat :=
  (key.toList.foldl
    (fun p c => ((c.toNat + p.2 * p.1) % tableSize, p.2 * 31 % (tableSize - 1)))
    ((0 : Nat), (31415 : Nat))).1

/-- `HashyStepTable.hash2`: `(4*len(key)*ord(key[0]) + 3) % 13`.
Python raises on an empty key (`key[0]`); the `headD` default is never
used for the nonempty keys of this development. -/
def hash2 (key : String) : Nat :=
  (4 * key.length * (key.toList.headD (Char.ofNat 0)).toNat + 3) % 13

/-- The body of `_hashy_probe`'s `for` loop, as a Bool test: does the
loop `return position` when it inspects `slot` while searching `key`?
  * `None`               : returns iff `is_insert`
  * `(Sentinel,Sentinel)`: the `is Sentinel` branch is unreachable
    (the slot is a tuple, not the class), and `slot[0] == key` compares
    the class `Sentinel` with the key string, which is `False`, so the
    loop always steps on: never a hit
  * `(k, v)`             : returns iff `k == key`. -/
def probeHit (key : String) (isInsert : Bool) : Slot V → Bool
  | Slot.empty => isInsert
  | Slot.tomb => false
  | Slot.occupied k _ => k == key

/-- The `for _ in range(0, self.table_size)` loop of `_hashy_probe`:
`fuel` counts the remaining iterations, `pos` is `position`; each
non-hit iteration steps `position = (position + step_size) % table_size`.
`none` means the loop ran out of iterations. -/
def probeLoop (arr : List (Slot V)) (key : String) (isInsert : Bool)
    (step : Nat) : Nat → Nat → Option Nat
  | 0, _ => none
  | fuel + 1, pos =>
    if probeHit key isInsert (arr.getD pos Slot.empty) then some pos
    else probeLoop arr key isInsert step fuel ((pos + step) % arr.length)

/-- `HashyStepTable.keys()`: `for x in range(self.table_size): if
self.array[x] is not None: res.append(self.array[x][0])`.  A tombstone
slot is not `None`, so its first component (the class `Sentinel`)
is appended too. -/
def keysStep (st : StepState V) : List (Cell String) :=
  (List.range st.array.length).foldl
    (fun res x =>
      match st.array.getD x Slot.empty with
      | Slot.empty => res
      | Slot.occupied k _ => res ++ [Cell.item k]
      | Slot.tomb => res ++ [Cell.sent])
    []

/-- `HashyStepTable.values()`: same scan, second component. -/
def valuesStep (st : StepState V) : List (Cell V) :=
  (List.range st.array.length).foldl
    (fun res x =>
      match st.array.getD x Slot.empty with
      | Slot.empty => res
      | Slot.occupied _ v => res ++ [Cell.item v]
      | Slot.tomb => res ++ [Cell.sent])
    []

/-- Outcome of `_hashy_probe`:
  * `pos n`    — the loop returned index `n`;
  * `fullErr`  — budget exhausted with `is_insert`: `raise FullError`;
  * `keyErr`   — budget exhausted, lookup, `key not in self.keys()`:
                 `raise KeyError(key)`;
  * `noneRet`  — budget exhausted, lookup, `key in self.keys()`:
                 the function falls off the end and returns `None`
                 (its annotation says `-> int`). -/
inductive ProbeRes where
  | pos (n : Nat)
  | fullErr
  | keyErr
  | noneRet
  deriving DecidableEq, Repr

/-- `HashyStepTable._hashy_probe`. -/
def hashyProbe (st : StepState V) (key : String) (isInsert : Bool) : ProbeRes :=
  match probeLoop st.array key isInsert (hash2 key) st.array.length
      (hashStep st.array.length key) with
  | some p => ProbeRes.pos p
  | none =>
    if isInsert then ProbeRes.fullErr
    else if Cell.item key ∈ keysStep st then ProbeRes.noneRet
    else ProbeRes.keyErr

inductive GetErr where
  | keyErr
  /-- `__getitem__` evaluating `self.array[None][1]` after the probe
  returned `None`: a `TypeError`, not a `KeyError`. -/
  | typeErr
  deriving DecidableEq, Repr

/-- `HashyStepTable.__getitem__`: `position = self._hashy_probe(key, False);
return self.array[position][1]`.  When the probe returned `None`
(key physically present but unreachable), indexing with `None` raises
`TypeError`.  (The probe in lookup mode only ever returns the index of
a slot whose stored key equals `key`; the non-`occupied` fallbacks
below are unreachable and also mapped to `typeErr`.) -/
def getItem (st : StepState V) (key : String) : Except GetErr V :=
  match hashyProbe st key false with
  | ProbeRes.pos n =>
    match st.array.getD n Slot.empty with
    | Slot.occupied _ v => Except.ok v
    | _ => Except.error GetErr.typeErr
  | ProbeRes.keyErr => Except.error GetErr.keyErr
  | _ => Except.error GetErr.typeErr

inductive SetErr where
  | full
  /-- `_rehash` raising: `TABLE_SIZES.index` misses (`ValueError`) or
  `TABLE_SIZES[i+1]` is out of range (`IndexError`): ladder exhausted. -/
  | ladder
  deriving DecidableEq, Repr

/-- `list.index(x)` (first position of `x`), `none` for `ValueError`. -/
def listIndex (x : Nat) : List Nat → Option Nat
  | [] => none
  | y :: ys => if y == x then some 0 else (listIndex x ys).map (· + 1)

/-- The copy loop of `_rehash`:
`x = 0; for item in old_table: if item is not None: table[x] = (item[0], item[1]); x += 1`.
`x` advances on every iteration, so this is a positional copy; a
tombstone `(Sentinel, Sentinel)` is not `None` and is copied as well. -/
def copyLoop : List (Slot V) → Nat → List (Slot V) → List (Slot V)
  | [], _, acc => acc
  | Slot.empty :: rest, x, acc => copyLoop rest (x + 1) acc
  | Slot.occupied k v :: rest, x, acc => copyLoop rest (x + 1) (acc.set x (Slot.occupied k v))
  | Slot.tomb :: rest, x, acc => copyLoop rest (x + 1) (acc.set x Slot.tomb)

/-- `HashyStepTable._rehash`: `i = TABLE_SIZES.index(table_size)`;
new `ArrayR(TABLE_SIZES[i+1])`; positional copy; `count` untouched. -/
def rehash (st : StepState V) : Except SetErr (StepState V) :=
  match listIndex st.array.length st.sizes with
  | none => Except.error SetErr.ladder
  | some i =>
    match st.sizes.get? (i + 1) with
    | none => Except.error SetErr.ladder
    | some newSize =>
      Except.ok
        { array := copyLoop st.array 0 (List.replicate newSize Slot.empty)
          count := st.count
          sizes := st.sizes }

/-- `Slot` test for `self.array[position] is None`. -/
def Slot.isNone : Slot V → Bool
  | Slot.empty => true
  | _ => false

/-- `HashyStepTable.__setitem__`: probe in insert mode; `count += 1`
iff the chosen slot `is None`; write `(key, data)`; then
`if len(self) > self.table_size * 2 / 3: self._rehash()`.  The float
comparison `count > size*2/3` is `3*count > 2*size` exactly for the
integer ranges involved. -/
def setItem (st : StepState V) (key : String) (v : V) :
    Except SetErr (StepState V) :=
  match hashyProbe st key true with
  | ProbeRes.pos q =>
    let cnt : Int :=
      if (st.array.getD q Slot.empty).isNone then st.count + 1 else st.count
    let st1 : StepState V :=
      { array := st.array.set q (Slot.occupied key v), count := cnt, sizes := st.sizes }
    if 3 * cnt > 2 * (st1.array.length : Int) then rehash st1 else Except.ok st1
  | _ => Except.error SetErr.full

/-- The scan of `__delitem__`:
`for elem in range(len(self.array)): if array[elem] is None: continue;
if array[elem][0] == key: position = elem; break`.
For a tombstone, `array[elem][0]` is the class `Sentinel`, and
`Sentinel == key` is `False`, so tombstones are skipped. -/
def delScan (key : String) : List (Slot V) → Nat → Option Nat
  | [], _ => none
  | Slot.occupied k _ :: rest, x =>
    if k == key then some x else delScan key rest (x + 1)
  | _ :: rest, x => delScan key rest (x + 1)

/-- `HashyStepTable.__delitem__`: linear scan from index 0; if found,
the slot becomes `(Sentinel, Sentinel)`; `count -= 1` unconditionally. -/
def delItem (st : StepState V) (key : String) : StepState V :=
  match delScan key st.array 0 with
  | some p => { array := st.array.set p Slot.tomb, count := st.count - 1, sizes := st.sizes }
  | none => { array := st.array, count := st.count - 1, sizes := st.sizes }

/-- `key in self` / `len(self)` are direct reads and need no model
beyond `getItem` and `count`. Sequencing helper for test scenarios:
left-to-right `__setitem__` of each pair. -/
def insertAll (st : StepState V) (kvs : List (String × V)) :
    Except SetErr (StepState V) :=
  kvs.foldlM (fun s kv => setItem s kv.1 kv.2) st

/- ===================================================================
   Shallow embedding of src/hashy_perfection_table.py
   (class HashyPerfectionTable).
   =================================================================== -/

/-- A slot of the perfection table: `None` or a `(key, value)` pair
(no tombstones; `__delitem__` writes `None` back). -/
inductive PSlot (V : Type) where
  | empty
  | occupied (key : String) (val : V)
  deriving DecidableEq, Repr

structure PerfState (V : Type) where
  array : List (PSlot V)
  count : Int
  deriving DecidableEq, Repr

/-- `HashyPerfectionTable.__init__`: `ArrayR(13)`, `count = 0`. -/
def initPerf (V : Type) : PerfState V :=
  { array := List.replicate 13 PSlot.empty, count := 0 }

/-- Modelled from the spec: the canonical strings of the `PlayerStats`
enum of `constants.py`, which is not part of the sources at hand — the
spec describes "a fixed enumerated set of domain keys (representing
named attribute categories)" with "a static index→expected-key table
derived from the enumerated domain".  The attribute names are those the
per-index guards of `hashy_perfection_table.py` reference
(`PlayerStats.TACKLES`, ... `PlayerStats.HEIGHT`); each canonical
string hashes to exactly the index whose guard names it. -/
def statTackles : String := "TACKLES"

def statWeight : String := "WEIGHT"

def statWeakFootAbility : String := "WEAK_FOOT_ABILITY"

def statGamesPlayed : String := "GAMES_PLAYED"

def statGoals : String := "GOALS"

def statStarSkill : String := "STAR_SKILL"

def statAssists : String := "ASSISTS"

def statInterceptions : String := "INTERCEPTIONS"

def statHeight : String := "HEIGHT"

/-- Modelled from the spec: the closed key domain (the `PlayerStats`
key set), listed in the order of their slots 0,1,2,3,4,6,8,11,12. -/
def playerStatsKeys : List String :=
  [statTackles, statWeight, statWeakFootAbility, statGamesPlayed,
   statGoals, statStarSkill, statAssists, statInterceptions, statHeight]

/-- `HashyPerfectionTable.hash`: `(3**len(key) * ord(key[0]) + 3*len(key)) % 13`.
Python raises on an empty key (`key[0]`); the `headD` default is never
used for the nonempty keys of this development. -/
def hashP (key : String) : Nat :=
  (3 ^ key.length * (key.toList.headD (Char.ofNat 0)).toNat + 3 * key.length) % 13

/-- The shared validation chain of `__getitem__` / `__setitem__` /
`__delitem__`: `true` iff the chain raises
`KeyError("Not a key contained in Player Stats")`.
`position in range(9,11)` is `9 <= position < 11`; the nested
`position in range(0,5)` / `range(11,13)` guards collapse to the
per-index conjuncts below.  `key is not PlayerStats(...).value`
compares against the canonical enum string; per the spec the identity
comparison is re-expressed as string equality. -/
def invalidAt (position : Nat) (key : String) : Bool :=
  decide (position > 12) || (decide (9 ≤ position) && decide (position < 11)) ||
    position == 7 || position == 5 ||
    (position == 6 && !(key == statStarSkill)) ||
    (position == 8 && !(key == statAssists)) ||
    (position == 0 && !(key == statTackles)) ||
    (position == 1 && !(key == statWeight)) ||
    (position == 2 && !(key == statWeakFootAbility)) ||
    (position == 3 && !(key == statGamesPlayed)) ||
    (position == 4 && !(key == statGoals)) ||
    (position == 11 && !(key == statInterceptions)) ||
    (position == 12 && !(key == statHeight))

/-- The expected domain key of each reachable index (the guard table
of the source, one key per index; `none` on the dead indices). -/
def expectedKeyAt : Nat → Option String
  | 0 => some statTackles
  | 1 => some statWeight
  | 2 => some statWeakFootAbility
  | 3 => some statGamesPlayed
  | 4 => some statGoals
  | 6 => some statStarSkill
  | 8 => some statAssists
  | 11 => some statInterceptions
  | 12 => some statHeight
  | _ => none

inductive PErr where
  /-- `KeyError("Not a key contained in Player Stats")`. -/
  | invalidKey
  /-- `KeyError(f"{key} not found")` on an empty slot. -/
  | notFound
  deriving DecidableEq, Repr

/-- `HashyPerfectionTable.__getitem__`. -/
def getItemP (st : PerfState V) (key : String) : Except PErr V :=
  let position := hashP key
  if invalidAt position key then Except.error PErr.invalidKey
  else
    match st.array.getD position PSlot.empty with
    | PSlot.empty => Except.error PErr.notFound
    | PSlot.occupied _ v => Except.ok v

def PSlot.isNone : PSlot V → Bool
  | PSlot.empty => true
  | _ => false

/-- `HashyPerfectionTable.__setitem__`: validation chain, then
`count += 1` iff the slot `is None`, then write `(key, data)`.
All raises precede any mutation, so an error leaves the state as it
was (the `Except.error` result carries no new state). -/
def setItemP (st : PerfState V) (key : String) (v : V) :
    Except PErr (PerfState V) :=
  let position := hashP key
  if invalidAt position key then Except.error PErr.invalidKey
  else
    Except.ok
      { array := st.array.set position (PSlot.occupied key v)
        count :=
          if (st.array.getD position PSlot.empty).isNone then st.count + 1
          else st.count }

/-- `HashyPerfectionTable.__delitem__`: validation chain, then
`array[position] = None; count -= 1` (unconditionally, even if the
slot was already empty). -/
def delItemP (st : PerfState V) (key : String) : Except PErr (PerfState V) :=
  let position := hashP key
  if invalidAt position key then Except.error PErr.invalidKey
  else
    Except.ok
      { array := st.array.set position PSlot.empty
        count := st.count - 1 }

/-- The fill loop of `HashyPerfectionTable.keys()`:
`res = ArrayR(len(self.array)); i = 0;
for x in range(len(self)): if self.array[x] is not None: res[i] = array[x][0]; i += 1`.
Note the range bound is `len(self)` = `count`, not the array length.
`xs` is the list of `x` values, `i` the write cursor, `res` the
`ArrayR` being filled (`none` = still `None`). -/
def fillLoop (extract : PSlot V → Option A) (arr : List (PSlot V)) :
    List Nat → List (Option A) → Nat → List (Option A)
  | [], res, _ => res
  | x :: xs, res, i =>
    match extract (arr.getD x PSlot.empty) with
    | none => fillLoop extract arr xs res i
    | some a => fillLoop extract arr xs (res.set i (some a)) (i + 1)

def pKeyOf : PSlot V → Option String
  | PSlot.empty => none
  | PSlot.occupied k _ => some k

def pValOf : PSlot V → Option V
  | PSlot.empty => none
  | PSlot.occupied _ v => some v

/-- `HashyPerfectionTable.keys()`; `range(len(self))` on a negative
`count` is empty, matching Python's `range`. -/
def keysP (st : PerfState V) : List (Option String) :=
  fillLoop pKeyOf st.array (List.range st.count.toNat)
    (List.replicate st.array.length none) 0

/-- `HashyPerfectionTable.values()`. -/
def valuesP (st : PerfState V) : List (Option V) :=
  fillLoop pValOf st.array (List.range st.count.toNat)
    (List.replicate st.array.length none) 0

/- ===================================================================
   Helper lemmas
   =================================================================== -/

theorem getD_set_self {γ : Type} (l : List γ) (i : Nat) (a d : γ) (h : i < l.length) :
    (l.set i a).getD i d = a := by
  induction l generalizing i with
  | nil => simp at h
  | cons b t ih =>
    cases i with
    | zero => rfl
    | succ i => exact ih i (by simpa using h)

theorem getD_set_ne {γ : Type} (l : List γ) (i j : Nat) (a d : γ) (h : i ≠ j) :
    (l.set i a).getD j d = l.getD j d := by
  induction l generalizing i j with
  | nil => rfl
  | cons b t ih =>
    cases i with
    | zero => cases j with
      | zero => exact absurd rfl h
      | succ j => rfl
    | succ i =>
      cases j with
      | zero => rfl
      | succ j => exact ih i j (fun e => h (congrArg Nat.succ e))

/-- If `p` first holds at `i < n`, then `find?` over `range n` returns `i`. -/
theorem range_find?_eq_some (n : Nat) :
    ∀ (p : Nat → Bool) (i : Nat), i < n → p i = true → (∀ j, j < i → p j = false) →
      (List.range n).find? p = some i := by
  induction n with
  | zero => intro p i hi _ _; exact absurd hi (Nat.not_lt_zero i)
  | succ n ih =>
    intro p i hi hpi hmin
    rw [List.range_succ_eq_map]
    cases i with
    | zero => exact List.find?_cons_of_pos _ hpi
    | succ i =>
      rw [List.find?_cons_of_neg _ (by simp [hmin 0 (Nat.succ_pos i)]), List.find?_map]
      have h := ih (fun j => p (j + 1)) i (by omega) hpi (fun j hj => hmin (j + 1) (by omega))
      simp only [Function.comp_def]
      rw [h]
      rfl

/-- Conversely, `find?` over `range n` returning `i` means `p` first holds at `i`. -/
theorem range_find?_spec (n : Nat) :
    ∀ (p : Nat → Bool) (i : Nat), (List.range n).find? p = some i →
      p i = true ∧ i < n ∧ ∀ j, j < i → p j = false := by
  induction n with
  | zero => intro p i h; simp at h
  | succ n ih =>
    intro p i h
    rw [List.range_succ_eq_map] at h
    by_cases hp0 : p 0 = true
    · rw [List.find?_cons_of_pos _ hp0] at h
      obtain rfl : i = 0 := by simpa using h.symm
      exact ⟨hp0, Nat.succ_pos n, fun j hj => absurd hj (Nat.not_lt_zero j)⟩
    · rw [List.find?_cons_of_neg _ hp0, List.find?_map] at h
      simp only [Function.comp_def] at h
      obtain ⟨i', hfind, rfl⟩ : ∃ i', (List.range n).find? (fun j => p (j + 1)) = some i' ∧ i' + 1 = i := by
        cases hf : (List.range n).find? (fun j => p (j + 1)) with
        | none => rw [hf] at h; simp at h
        | some k => rw [hf] at h; exact ⟨k, rfl, by simpa using h⟩
      obtain ⟨h1, h2, h3⟩ := ih _ _ hfind
      refine ⟨h1, by omega, fun j hj => ?_⟩
      cases j with
      | zero => simpa using hp0
      | succ j => exact h3 j (by omega)

theorem hashStep_lt (n : Nat) (key : String) (h : 0 < n) : hashStep n key < n := by
  unfold hashStep
  generalize key.toList = cs
  suffices H : ∀ (cs : List Char) (acc : Nat × Nat), acc.1 < n →
      (cs.foldl (fun p c => ((c.toNat + p.2 * p.1) % n, p.2 * 31 % (n - 1))) acc).1 < n by
    exact H cs (0, 31415) h
  intro cs
  induction cs with
  | nil => intro acc hacc; exact hacc
  | cons c cs ih => intro acc _; exact ih _ (Nat.mod_lt _ h)

/-- The probe loop visits positions `(q + i*step) % capacity` and returns the
first hit position, if any hit occurs within its fuel. -/
theorem probeLoop_eq_find (arr : List (Slot V)) (key : String) (ins : Bool) (step : Nat) :
    ∀ (fuel q : Nat), q < arr.length →
      probeLoop arr key ins step fuel q =
        ((List.range fuel).find? fun i =>
            probeHit key ins (arr.getD ((q + i * step) % arr.length) Slot.empty)).map
          (fun i => (q + i * step) % arr.length) := by
  intro fuel
  induction fuel with
  | zero => intro q _; simp [probeLoop]
  | succ fuel ih =>
    intro q hq
    have hlen : 0 < arr.length := by omega
    have e0 : (q + 0 * step) % arr.length = q := by
      simp [Nat.mod_eq_of_lt hq]
    rw [probeLoop, List.range_succ_eq_map]
    by_cases hhit : probeHit key ins (arr.getD q Slot.empty) = true
    · rw [if_pos hhit, List.find?_cons_of_pos _ (by rw [e0]; exact hhit)]
      simp [Nat.mod_eq_of_lt hq]
    · rw [if_neg hhit, List.find?_cons_of_neg _ (by rw [e0]; simpa using hhit)]
      have hq' : (q + step) % arr.length < arr.length := Nat.mod_lt _ (by omega)
      rw [ih ((q + step) % arr.length) hq', List.find?_map]
      have hfun : ∀ i : Nat,
          ((q + step) % arr.length + i * step) % arr.length = (q + (i + 1) * step) % arr.length := by
        intro i
        rw [Nat.mod_add_mod]
        ring_nf
      have hpred : (fun i => probeHit key ins
            (arr.getD (((q + step) % arr.length + i * step) % arr.length) Slot.empty))
          = ((fun i => probeHit key ins (arr.getD ((q + i * step) % arr.length) Slot.empty)) ∘ Nat.succ) := by
        funext i
        simp [Function.comp, hfun i, Nat.succ_eq_add_one]
      rw [hpred, Option.map_map]
      cases hf : (List.range fuel).find?
          ((fun i => probeHit key ins (arr.getD ((q + i * step) % arr.length) Slot.empty)) ∘ Nat.succ) with
      | none => rfl
      | some k =>
        simp only [Option.map_some', Function.comp]
        rw [hfun k]

/-- The probe path of `key`: start at the primary hash, step by the
secondary hash, everything mod capacity. -/
def probePath (st : StepState V) (key : String) (i : Nat) : Nat :=
  (hashStep st.array.length key + i * hash2 key) % st.array.length

/-- Declarative description of `_hashy_probe`: return the position of
the first hit along the probe path within `capacity` attempts,
otherwise fail exactly as the loop epilogue does. -/
def probeSpec (st : StepState V) (key : String) (isInsert : Bool) : ProbeRes :=
  match (List.range st.array.length).find?
      (fun i => probeHit key isInsert (st.array.getD (probePath st key i) Slot.empty)) with
  | some i => ProbeRes.pos (probePath st key i)
  | none =>
    if isInsert then ProbeRes.fullErr
    else if Cell.item key ∈ keysStep st then ProbeRes.noneRet
    else ProbeRes.keyErr

theorem hashyProbe_eq_spec (st : StepState V) (key : String) (ins : Bool)
    (h : 0 < st.array.length) : hashyProbe st key ins = probeSpec st key ins := by
  unfold hashyProbe probeSpec probePath
  rw [probeLoop_eq_find st.array key ins (hash2 key) st.array.length
      (hashStep st.array.length key) (hashStep_lt _ _ h)]
  cases hf : (List.range st.array.length).find?
      (fun i => probeHit key ins
        (st.array.getD ((hashStep st.array.length key + i * hash2 key) % st.array.length)
          Slot.empty)) with
  | none => rfl
  | some i => rfl

theorem rehash_count (st st' : StepState V) (h : rehash st = Except.ok st') :
    st'.count = st.count := by
  unfold rehash at h
  split at h
  · exact absurd h (by simp)
  · split at h
    · exact absurd h (by simp)
    · cases h
      rfl

theorem hashyProbe_pos_len (st : StepState V) (key : String) (ins : Bool) (q : Nat)
    (h : hashyProbe st key ins = ProbeRes.pos q) : 0 < st.array.length := by
  by_contra hlen
  have h0 : st.array.length = 0 := by omega
  unfold hashyProbe at h
  rw [h0] at h
  simp only [probeLoop] at h
  cases ins with
  | true => simp at h
  | false => by_cases hm : Cell.item key ∈ keysStep st <;> simp [hm] at h

/-- A slot that does not stop the insert probe does not stop the lookup
probe either (the converse fails on `Slot.empty`). -/
theorem probeHit_false_mono (key : String) (s : Slot V)
    (h : probeHit key true s = false) : probeHit key false s = false := by
  cases s <;> simpa [probeHit] using h

/-- The `keys()` / `values()` projection of one slot:
`none` for `None`, otherwise the component `[0]` / `[1]` of the tuple
(the class `Sentinel` for a tombstone). -/
def cellKeyOf : Slot V → Option (Cell String)
  | Slot.empty => none
  | Slot.occupied k _ => some (Cell.item k)
  | Slot.tomb => some Cell.sent

def cellValOf : Slot V → Option (Cell V)
  | Slot.empty => none
  | Slot.occupied _ v => some (Cell.item v)
  | Slot.tomb => some Cell.sent

/-- `res.append [b]` when `b?` is there, `res` otherwise: the body of
the `keys()` / `values()` loops. -/
def appendCell {β : Type} (res : List β) : Option β → List β
  | none => res
  | some b => res ++ [b]

theorem foldl_append_filterMap {γ β : Type} (g : γ → Option β) :
    ∀ (idxs : List γ) (res : List β),
      idxs.foldl (fun r x => appendCell r (g x)) res = res ++ idxs.filterMap g := by
  intro idxs
  induction idxs with
  | nil => intro res; simp
  | cons x xs ih =>
    intro res
    cases hg : g x with
    | none =>
      rw [List.foldl_cons, show appendCell res (g x) = res from by rw [hg]; rfl,
        ih res, List.filterMap_cons, hg]
    | some b =>
      rw [List.foldl_cons, show appendCell res (g x) = res ++ [b] from by rw [hg]; rfl,
        ih (res ++ [b]), List.filterMap_cons, hg]
      simp [List.append_assoc]

theorem filterMap_range_getD {γ β : Type} (f : γ → Option β) (d : γ) :
    ∀ (k : Nat) (l : List γ), k ≤ l.length →
      (List.range k).filterMap (fun x => f (l.getD x d)) = (l.take k).filterMap f := by
  intro k
  induction k with
  | zero => intro l _; simp
  | succ k ih =>
    intro l hk
    cases l with
    | nil => simp at hk
    | cons a t =>
      rw [List.range_succ_eq_map, List.filterMap_cons, List.filterMap_map]
      have : ((fun x => f ((a :: t).getD x d)) ∘ Nat.succ) = fun x => f (t.getD x d) := by
        funext x
        rfl
      rw [this, ih t (by simpa using hk), List.take_succ_cons, List.filterMap_cons]
      rfl

theorem keysStep_eq_filterMap (st : StepState V) :
    keysStep st = st.array.filterMap cellKeyOf := by
  have hfun : (fun (res : List (Cell String)) x =>
        match st.array.getD x Slot.empty with
        | Slot.empty => res
        | Slot.occupied k _ => res ++ [Cell.item k]
        | Slot.tomb => res ++ [Cell.sent])
      = fun res x => appendCell res (cellKeyOf (st.array.getD x Slot.empty)) := by
    funext res x
    cases st.array.getD x Slot.empty <;> rfl
  have h1 : keysStep st
      = [] ++ (List.range st.array.length).filterMap
          (fun x => cellKeyOf (st.array.getD x Slot.empty)) := by
    unfold keysStep
    rw [hfun]
    exact foldl_append_filterMap (fun x => cellKeyOf (st.array.getD x Slot.empty))
      (List.range st.array.length) []
  rw [h1, List.nil_append,
    filterMap_range_getD cellKeyOf Slot.empty st.array.length st.array (Nat.le_refl _),
    List.take_length]

theorem valuesStep_eq_filterMap (st : StepState V) :
    valuesStep st = st.array.filterMap cellValOf := by
  have hfun : (fun (res : List (Cell V)) x =>
        match st.array.getD x Slot.empty with
        | Slot.empty => res
        | Slot.occupied _ v => res ++ [Cell.item v]
        | Slot.tomb => res ++ [Cell.sent])
      = fun res x => appendCell res (cellValOf (st.array.getD x Slot.empty)) := by
    funext res x
    cases st.array.getD x Slot.empty <;> rfl
  have h1 : valuesStep st
      = [] ++ (List.range st.array.length).filterMap
          (fun x => cellValOf (st.array.getD x Slot.empty)) := by
    unfold valuesStep
    rw [hfun]
    exact foldl_append_filterMap (fun x => cellValOf (st.array.getD x Slot.empty))
      (List.range st.array.length) []
  rw [h1, List.nil_append,
    filterMap_range_getD cellValOf Slot.empty st.array.length st.array (Nat.le_refl _),
    List.take_length]

/-- `__delitem__`'s scan finds the first occupied slot holding `key`,
scanning physical indices upward; tombstones and empties are skipped. -/
def delHit (key : String) : Slot V → Bool
  | Slot.occupied k _ => k == key
  | _ => false

theorem delScan_eq_find (key : String) :
    ∀ (arr : List (Slot V)) (x : Nat),
      delScan key arr x
        = ((List.range arr.length).find? fun i => delHit key (arr.getD i Slot.empty)).map (· + x) := by
  intro arr
  induction arr with
  | nil => intro x; simp [delScan]
  | cons s rest ih =>
    intro x
    rw [List.length_cons, List.range_succ_eq_map]
    by_cases hs : delHit key s = true
    · rw [List.find?_cons_of_pos _ (by simpa using hs)]
      cases s with
      | occupied k v => simp [delScan, show (k == key) = true from hs]
      | empty => simp [delHit] at hs
      | tomb => simp [delHit] at hs
    · rw [List.find?_cons_of_neg _ (by simpa using hs), List.find?_map]
      have hstep : delScan key (s :: rest) x = delScan key rest (x + 1) := by
        cases s with
        | occupied k v =>
          have : (k == key) = false := by simpa [delHit] using hs
          simp [delScan, this]
        | empty => rfl
        | tomb => rfl
      rw [hstep, ih (x + 1)]
      have hcomp : ((fun i => delHit key ((s :: rest).getD i Slot.empty)) ∘ Nat.succ)
          = fun i => delHit key (rest.getD i Slot.empty) := by
        funext i
        rfl
      rw [hcomp, Option.map_map]
      cases (List.range rest.length).find? fun i => delHit key (rest.getD i Slot.empty) with
      | none => rfl
      | some k =>
        simp only [Option.map_some', Function.comp]
        congr 1
        omega

theorem copyLoop_length (old : List (Slot V)) :
    ∀ (x : Nat) (acc : List (Slot V)), (copyLoop old x acc).length = acc.length := by
  induction old with
  | nil => intro x acc; rfl
  | cons s rest ih =>
    intro x acc
    cases s with
    | empty => exact ih (x + 1) acc
    | occupied k v => rw [copyLoop, ih]; exact List.length_set acc x _
    | tomb => rw [copyLoop, ih]; exact List.length_set acc x _

/-- The `_rehash` copy writes only inside `[x, x + old.length)`:
outside, the accumulator is untouched. -/
theorem copyLoop_getD_outside (old : List (Slot V)) :
    ∀ (x : Nat) (acc : List (Slot V)) (j : Nat), j < x ∨ x + old.length ≤ j →
      (copyLoop old x acc).getD j Slot.empty = acc.getD j Slot.empty := by
  induction old with
  | nil => intro x acc j _; rfl
  | cons s rest ih =>
    intro x acc j hj
    have hj' : j < x + 1 ∨ x + 1 + rest.length ≤ j := by
      rcases hj with h | h
      · exact Or.inl (by omega)
      · refine Or.inr ?_
        rw [List.length_cons] at h
        omega
    have hne : x ≠ j := by
      rcases hj with h | h
      · omega
      · rw [List.length_cons] at h
        omega
    cases s with
    | empty => exact ih (x + 1) acc j hj'
    | occupied k v =>
      rw [copyLoop, ih (x + 1) _ j hj']
      exact getD_set_ne acc x j _ Slot.empty hne
    | tomb =>
      rw [copyLoop, ih (x + 1) _ j hj']
      exact getD_set_ne acc x j _ Slot.empty hne

/-- Inside `[x, x + old.length)`, the `_rehash` copy puts the old slot
`j - x` at position `j` when it is not `None` (tombstones included),
and leaves the accumulator's slot when the old slot is `None`. -/
theorem copyLoop_getD_inside (old : List (Slot V)) :
    ∀ (x : Nat) (acc : List (Slot V)) (j : Nat), x + old.length ≤ acc.length →
      x ≤ j → j < x + old.length →
      (copyLoop old x acc).getD j Slot.empty
        = if (old.getD (j - x) Slot.empty).isNone then acc.getD j Slot.empty
          else old.getD (j - x) Slot.empty := by
  induction old with
  | nil =>
    intro x acc j _ h1 h2
    rw [List.length_nil] at h2
    omega
  | cons s rest ih =>
    intro x acc j hle h1 h2
    have hlen : x + 1 + rest.length ≤ acc.length := by
      rw [List.length_cons] at hle
      omega
    have hxacc : x < acc.length := by
      rw [List.length_cons] at hle
      omega
    by_cases hxj : j = x
    · subst hxj
      rw [Nat.sub_self]
      cases s with
      | empty =>
        have hc : ((Slot.empty :: rest).getD 0 Slot.empty).isNone = true := rfl
        rw [if_pos hc, copyLoop, copyLoop_getD_outside rest (j + 1) acc j (Or.inl (by omega))]
      | occupied k v =>
        rw [if_neg (by simp [Slot.isNone]), copyLoop,
          copyLoop_getD_outside rest (j + 1) _ j (Or.inl (by omega)),
          getD_set_self acc j _ Slot.empty hxacc]
        rfl
      | tomb =>
        rw [if_neg (by simp [Slot.isNone]), copyLoop,
          copyLoop_getD_outside rest (j + 1) _ j (Or.inl (by omega)),
          getD_set_self acc j _ Slot.empty hxacc]
        rfl
    · have hx1 : x + 1 ≤ j := by omega
      have hx2 : j < x + 1 + rest.length := by
        rw [List.length_cons] at h2
        omega
      have hshift : (s :: rest).getD (j - x) Slot.empty = rest.getD (j - (x + 1)) Slot.empty := by
        have hjx : j - x = (j - (x + 1)) + 1 := by omega
        rw [hjx]
        rfl
      rw [hshift]
      cases s with
      | empty => rw [copyLoop, ih (x + 1) acc j hlen hx1 hx2]
      | occupied k v =>
        rw [copyLoop, ih (x + 1) _ j (by rw [List.length_set]; exact hlen) hx1 hx2,
          getD_set_ne acc x j _ Slot.empty (fun e => hxj e.symm)]
      | tomb =>
        rw [copyLoop, ih (x + 1) _ j (by rw [List.length_set]; exact hlen) hx1 hx2,
          getD_set_ne acc x j _ Slot.empty (fun e => hxj e.symm)]

theorem set_append_length {γ : Type} (l1 l2 : List γ) (v : γ) :
    (l1 ++ l2).set l1.length v = l1 ++ l2.set 0 v := by
  induction l1 with
  | nil => rfl
  | cons a t ih => simp [List.set, ih]

/-- Running the `keys()`/`values()` fill loop with `done` entries already
written and room `m` left appends the extracted entries of `xs`
and keeps the remaining tail `None`. -/
theorem fillLoop_spec (extract : PSlot V → Option A) (arr : List (PSlot V)) :
    ∀ (xs : List Nat) (done : List A) (m : Nat),
      (xs.filterMap fun x => extract (arr.getD x PSlot.empty)).length ≤ m →
      fillLoop extract arr xs (done.map some ++ List.replicate m none) done.length
        = (done ++ xs.filterMap fun x => extract (arr.getD x PSlot.empty)).map some
            ++ List.replicate
                (m - (xs.filterMap fun x => extract (arr.getD x PSlot.empty)).length) none := by
  intro xs
  induction xs with
  | nil => intro done m _; simp [fillLoop]
  | cons x xs ih =>
    intro done m hm
    cases hx : extract (arr.getD x PSlot.empty) with
    | none =>
      simp only [fillLoop, hx, List.filterMap_cons]
      exact ih done m (by simpa only [List.filterMap_cons, hx] using hm)
    | some a =>
      have hm1 : 1 ≤ m := by
        simp only [List.filterMap_cons, hx, List.length_cons] at hm
        omega
      have hset : (done.map some ++ List.replicate m none).set done.length (some a)
          = (done ++ [a]).map some ++ List.replicate (m - 1) none := by
        rw [show done.length = (done.map some).length from (List.length_map done some).symm,
          set_append_length]
        cases m with
        | zero => omega
        | succ m' =>
          rw [List.replicate_succ]
          simp [List.map_append]
      have hm' : (xs.filterMap fun x => extract (arr.getD x PSlot.empty)).length ≤ m - 1 := by
        simp only [List.filterMap_cons, hx, List.length_cons] at hm
        omega
      have hrec := ih (done ++ [a]) (m - 1) hm'
      rw [List.length_append, List.length_cons, List.length_nil] at hrec
      simp only [fillLoop, hx, List.filterMap_cons]
      rw [hset, hrec]
      simp only [List.length_cons, List.append_assoc, List.singleton_append]
      congr 1
      congr 1
      omega

theorem length_filterMap_cellKeyOf (l : List (Slot V)) :
    (l.filterMap cellKeyOf).length = (l.filter fun s => !s.isNone).length := by
  induction l with
  | nil => rfl
  | cons s rest ih =>
    cases s <;> simp [List.filterMap_cons, List.filter_cons, cellKeyOf, Slot.isNone, ih]

/-- `keys()` of the perfection table reads only array positions
`0 .. count-1`: the result is the keys of the occupied slots among the
first `count` positions, padded with `None`. -/
theorem keysP_spec (st : PerfState V) (hc : st.count.toNat ≤ st.array.length) :
    keysP st
      = ((st.array.take st.count.toNat).filterMap pKeyOf).map some
          ++ List.replicate
              (st.array.length - ((st.array.take st.count.toNat).filterMap pKeyOf).length)
              none := by
  have hlen : ((List.range st.count.toNat).filterMap
      fun x => pKeyOf (st.array.getD x PSlot.empty)).length ≤ st.array.length := by
    calc ((List.range st.count.toNat).filterMap
        fun x => pKeyOf (st.array.getD x PSlot.empty)).length
        ≤ (List.range st.count.toNat).length := List.length_filterMap_le _ _
      _ = st.count.toNat := List.length_range _
      _ ≤ st.array.length := hc
  have h0 := fillLoop_spec pKeyOf st.array (List.range st.count.toNat) [] st.array.length hlen
  rw [List.map_nil, List.length_nil, List.nil_append, List.nil_append] at h0
  unfold keysP
  rw [h0, filterMap_range_getD pKeyOf PSlot.empty st.count.toNat st.array hc]

theorem valuesP_spec (st : PerfState V) (hc : st.count.toNat ≤ st.array.length) :
    valuesP st
      = ((st.array.take st.count.toNat).filterMap pValOf).map some
          ++ List.replicate
              (st.array.length - ((st.array.take st.count.toNat).filterMap pValOf).length)
              none := by
  have hlen : ((List.range st.count.toNat).filterMap
      fun x => pValOf (st.array.getD x PSlot.empty)).length ≤ st.array.length := by
    calc ((List.range st.count.toNat).filterMap
        fun x => pValOf (st.array.getD x PSlot.empty)).length
        ≤ (List.range st.count.toNat).length := List.length_filterMap_le _ _
      _ = st.count.toNat := List.length_range _
      _ ≤ st.array.length := hc
  have h0 := fillLoop_spec pValOf st.array (List.range st.count.toNat) [] st.array.length hlen
  rw [List.map_nil, List.length_nil, List.nil_append, List.nil_append] at h0
  unfold valuesP
  rw [h0, filterMap_range_getD pValOf PSlot.empty st.count.toNat st.array hc]

theorem hashP_lt (key : String) : hashP key < 13 := by
  unfold hashP
  exact Nat.mod_lt _ (by norm_num)

theorem probePath_lt (st : StepState V) (key : String) (i : Nat)
    (h : 0 < st.array.length) : probePath st key i < st.array.length := by
  unfold probePath
  exact Nat.mod_lt _ h

/-- On the fixed-domain table, a `set` that succeeds leaves the value
readable at the same key. -/
theorem setItemP_roundtrip (st st' : PerfState V) (key : String) (v : V)
    (hlen : st.array.length = 13) (hset : setItemP st key v = Except.ok st') :
    getItemP st' key = Except.ok v := by
  unfold setItemP at hset
  by_cases hv : invalidAt (hashP key) key = true
  · rw [if_pos hv] at hset
    exact absurd hset (by simp)
  · rw [if_neg hv] at hset
    injection hset with h2
    subst h2
    have hpos : hashP key < st.array.length := by
      rw [hlen]
      exact hashP_lt key
    unfold getItemP
    rw [if_neg hv]
    simp only []
    rw [getD_set_self st.array (hashP key) (PSlot.occupied key v) PSlot.empty hpos]

/-- After the insert probe has chosen slot `q` for `key` and `(key, v)`
has been written there, the lookup probe finds exactly that slot. -/
theorem lookup_after_write (st st' : StepState V) (key : String) (v : V) (q : Nat)
    (hpr : hashyProbe st key true = ProbeRes.pos q)
    (harr : st'.array = st.array.set q (Slot.occupied key v)) :
    getItem st' key = Except.ok v := by
  have hlen0 : 0 < st.array.length := hashyProbe_pos_len st key true q hpr
  have hspec := hashyProbe_eq_spec st key true hlen0
  rw [hpr] at hspec
  unfold probeSpec at hspec
  cases hf : (List.range st.array.length).find?
      (fun i => probeHit key true (st.array.getD (probePath st key i) Slot.empty)) with
  | none =>
    rw [hf] at hspec
    simp at hspec
  | some i =>
    rw [hf] at hspec
    have hq : q = probePath st key i := by injection hspec
    obtain ⟨hhit, hilt, hmin⟩ := range_find?_spec st.array.length _ i hf
    have hqlt : q < st.array.length := by
      rw [hq]
      exact probePath_lt st key i hlen0
    have hlen' : st'.array.length = st.array.length := by
      rw [harr]
      exact List.length_set st.array q _
    have hpath' : ∀ j, probePath st' key j = probePath st key j := by
      intro j
      unfold probePath
      rw [hlen']
    have hslot' : st'.array.getD q Slot.empty = Slot.occupied key v := by
      rw [harr]
      exact getD_set_self st.array q _ Slot.empty hqlt
    have hfind' : (List.range st'.array.length).find?
        (fun j => probeHit key false (st'.array.getD (probePath st' key j) Slot.empty))
        = some i := by
      rw [hlen']
      apply range_find?_eq_some st.array.length _ i hilt
      · rw [hpath' i, ← hq, hslot']
        simp [probeHit]
      · intro j hj
        rw [hpath' j]
        have hne : q ≠ probePath st key j := by
          intro hc
          have hx : probeHit key true (st.array.getD (probePath st key j) Slot.empty) = true := by
            rw [← hc, hq]
            exact hhit
          rw [hmin j hj] at hx
          exact Bool.false_ne_true hx
        have hgd : st'.array.getD (probePath st key j) Slot.empty
            = st.array.getD (probePath st key j) Slot.empty := by
          rw [harr]
          exact getD_set_ne st.array q (probePath st key j) _ Slot.empty hne
        rw [hgd]
        exact probeHit_false_mono key _ (hmin j hj)
    have hspec' := hashyProbe_eq_spec st' key false (by rw [hlen']; exact hlen0)
    unfold getItem
    rw [hspec']
    unfold probeSpec
    rw [hfind']
    simp only []
    rw [hpath' i, ← hq, hslot']

/-- On the growable table, a `set` that succeeds without triggering
growth leaves the value readable at the same key. -/
theorem setItem_roundtrip (st st' : StepState V) (key : String) (v : V)
    (hset : setItem st key v = Except.ok st')
    (hng : 3 * st'.count ≤ 2 * (st.array.length : Int)) :
    getItem st' key = Except.ok v := by
  cases hpr : hashyProbe st key true with
  | fullErr => unfold setItem at hset; rw [hpr] at hset; exact absurd hset (by simp)
  | keyErr => unfold setItem at hset; rw [hpr] at hset; exact absurd hset (by simp)
  | noneRet => unfold setItem at hset; rw [hpr] at hset; exact absurd hset (by simp)
  | pos q =>
    unfold setItem at hset
    rw [hpr] at hset
    simp only [] at hset
    have hsetlen : ((st.array.set q (Slot.occupied key v)).length : Int) = (st.array.length : Int) := by
      rw [List.length_set st.array q _]
    split at hset <;> split at hset <;>
    first
      | · rename_i hgrow
          have hcnt := rehash_count _ _ hset
          rw [hsetlen] at hgrow
          simp only [hcnt] at hng
          omega
      | · injection hset with h2
          exact lookup_after_write st st' key v q hpr (by rw [← h2])



/- ===================================================================
   Claims
   =================================================================== -/

/-- C1 (amended): round-trip. For the fixed-domain table, whenever
`set(k, v)` succeeds, `get(k)` returns `v`. For the growable table the
same holds whenever `set(k, v)` succeeds without triggering growth
(post-insert load factor at most 2/3); a growth-triggering `set` can
leave the key unreachable (see the counterexample), because `_rehash`
copies positionally while the primary hash is capacity-dependent. -/
theorem c1_roundtrip :
    (∀ (V : Type) (st st' : PerfState V) (key : String) (v : V),
        st.array.length = 13 → setItemP st key v = Except.ok st' →
          getItemP st' key = Except.ok v) ∧
    (∀ (V : Type) (st st' : StepState V) (key : String) (v : V),
        setItem st key v = Except.ok st' →
          3 * st'.count ≤ 2 * (st.array.length : Int) →
          getItem st' key = Except.ok v) :=
  ⟨fun _ st st' key v h1 h2 => setItemP_roundtrip st st' key v h1 h2,
   fun _ st st' key v h1 h2 => setItem_roundtrip st st' key v h1 h2⟩

/-- C1 witness: concrete round trips on both tables. -/
theorem c1_roundtrip_witness :
    getItemP { array := (List.replicate 13 PSlot.empty).set 4 (PSlot.occupied "GOALS" (5 : Nat)), count := 1 } "GOALS" = Except.ok 5 ∧
    getItem { array := [Slot.occupied "ab" (1 : Nat), Slot.empty, Slot.empty, Slot.empty, Slot.empty], count := 1, sizes := [5, 13] } "ab" = Except.ok 1 :=
  ⟨c1_roundtrip.1 Nat (initPerf Nat) _ "GOALS" 5 (by rfl) (by rfl),
   c1_roundtrip.2 Nat (initStep Nat [5, 13]) _ "ab" 1 (by rfl) (by decide)⟩

/-- C1 counterexample: on the ladder `[5, 13]`, after inserting
"ab", "cd", "ef", the insert of "fx" succeeds and triggers growth,
but `get("fx")` then raises a `TypeError` instead of returning 4:
at capacity 13, "fx" hashes to 6 with step size `hash2("fx") = 0`, so
the lookup probes the empty slot 6 thirteen times while "fx" sits at
its positionally-copied index 2. So set-then-get does not return the
value for every reachable state in which set succeeds. -/
theorem c1_roundtrip_cex :
    ((insertAll (initStep Nat [5, 13]) [("ab", 1), ("cd", 2), ("ef", 3), ("fx", 4)]).map
        (fun s => getItem s "fx") = Except.ok (Except.error GetErr.typeErr)) ∧
    (Except.error GetErr.typeErr ≠ Except.ok (4 : Nat)) :=
  ⟨by rfl, by simp⟩

/-- C2 (amended): in lookup mode the probe search stops only at a slot
whose stored key equals the target. An `Empty` slot does NOT stop the
search (the loop steps past it), and a `Tombstone` does not stop it
either. On budget exhaustion the probe raises `KeyError` only when the
key is not among the stored keys; otherwise it returns no index
(Python `None`). This is `probeSpec`, the first-hit-along-the-path
description, with the lookup hit predicate being false on `Empty` and
`Tombstone` and true exactly on a key match. -/
theorem c2_lookup_probe (V : Type) (st : StepState V) (key : String)
    (h : 0 < st.array.length) :
    hashyProbe st key false = probeSpec st key false ∧
    probeHit key false (Slot.empty : Slot V) = false ∧
    probeHit key false (Slot.tomb : Slot V) = false ∧
    ∀ v : V, probeHit key false (Slot.occupied key v) = true :=
  ⟨hashyProbe_eq_spec st key false h, rfl, rfl, fun _ => by simp [probeHit]⟩

/-- C2 witness. -/
theorem c2_lookup_probe_witness :
    0 < (initStep Nat [5, 13]).array.length ∧
    hashyProbe (initStep Nat [5, 13]) "ab" false = probeSpec (initStep Nat [5, 13]) "ab" false :=
  ⟨by decide, (c2_lookup_probe Nat (initStep Nat [5, 13]) "ab" (by decide)).1⟩

/-- C2 counterexample: after inserting "ab", "cd", "ef", "gh" (which
grows the table to capacity 13), the slot at the primary hash position
of "gh" is `Empty`, yet `get("gh")` succeeds with 4 — so an `Empty`
slot does not stop the lookup and the key is not reported absent. -/
theorem c2_lookup_probe_cex :
    (insertAll (initStep Nat [5, 13]) [("ab", 1), ("cd", 2), ("ef", 3), ("gh", 4)]).map
        (fun s => (s.array.getD (hashStep s.array.length "gh") Slot.empty, getItem s "gh"))
      = Except.ok (Slot.empty, Except.ok 4) := by rfl

/-- C3 (amended): in insert mode the probe search stops at the first
slot along the probe path that is `Empty`, or that already holds the
target key (update path); a `Tombstone` does NOT stop it (the
`is Sentinel` branch of the source never fires because tombstones are
stored as the tuple `(Sentinel, Sentinel)`), so insertion does not
reclaim tombstoned slots. On budget exhaustion insert mode raises
`Full`. -/
theorem c3_insert_probe (V : Type) (st : StepState V) (key : String)
    (h : 0 < st.array.length) :
    hashyProbe st key true = probeSpec st key true ∧
    probeHit key true (Slot.empty : Slot V) = true ∧
    probeHit key true (Slot.tomb : Slot V) = false ∧
    ∀ v : V, probeHit key true (Slot.occupied key v) = true :=
  ⟨hashyProbe_eq_spec st key true h, rfl, rfl, fun _ => by simp [probeHit]⟩

/-- C3 witness. -/
theorem c3_insert_probe_witness :
    0 < (initStep Nat [5, 13]).array.length ∧
    hashyProbe (initStep Nat [5, 13]) "ab" true = probeSpec (initStep Nat [5, 13]) "ab" true :=
  ⟨by decide, (c3_insert_probe Nat (initStep Nat [5, 13]) "ab" (by decide)).1⟩

/-- C3 counterexample: insert "ab" (slot 0), delete it (tombstone at
slot 0), then probe "ab" in insert mode again: the probe path starts
at the tombstoned slot 0, but the probe returns slot 2 (the first
`Empty` slot, one step of 12 further), not the tombstone — so the
insert probe does not stop at the first `Empty`-or-`Tombstone` slot
and does not reclaim tombstones. -/
theorem c3_insert_probe_cex :
    (setItem (initStep Nat [5, 13]) "ab" 1).map
        (fun s =>
          let s2 := delItem s "ab"
          (hashyProbe s2 "ab" true, s2.array.getD 0 Slot.empty, hashStep 5 "ab"))
      = Except.ok (ProbeRes.pos 2, Slot.tomb, 0) := by rfl

/-- C4 (amended): `_rehash` allocates the next ladder capacity and
copies every slot that is not `None` — live entries AND tombstones —
into the new array at the same index (a direct positional copy, no
probe algorithm); positions that were `None` or beyond the old
capacity are `Empty` in the new array, and `count` is unchanged.
Tombstones are preserved, not dropped. -/
theorem c4_rehash_copy (V : Type) (st st' : StepState V) (i newSize : Nat)
    (hi : listIndex st.array.length st.sizes = some i)
    (hn : st.sizes.get? (i + 1) = some newSize)
    (hle : st.array.length ≤ newSize)
    (hr : rehash st = Except.ok st') :
    st'.array.length = newSize ∧ st'.count = st.count ∧
    (∀ j, j < st.array.length → (st.array.getD j Slot.empty).isNone = false →
        st'.array.getD j Slot.empty = st.array.getD j Slot.empty) ∧
    (∀ j, j < st.array.length → (st.array.getD j Slot.empty).isNone = true →
        st'.array.getD j Slot.empty = Slot.empty) ∧
    (∀ j, st.array.length ≤ j → st'.array.getD j Slot.empty = Slot.empty) := by
  unfold rehash at hr
  rw [hi] at hr
  simp only [] at hr
  rw [hn] at hr
  injection hr with h2
  have harr : st'.array = copyLoop st.array 0 (List.replicate newSize Slot.empty) := by
    rw [← h2]
  have hcnt : st'.count = st.count := by
    rw [← h2]
  have hacc : (List.replicate newSize (Slot.empty : Slot V)).length = newSize :=
    List.length_replicate newSize _
  have hrepl : ∀ j, (List.replicate newSize (Slot.empty : Slot V)).getD j Slot.empty
      = Slot.empty := by
    intro j
    rcases Nat.lt_or_ge j newSize with hj | hj
    · rw [List.getD_eq_getElem?_getD, List.getElem?_replicate, if_pos hj]
      rfl
    · rw [List.getD_eq_getElem?_getD, List.getElem?_replicate, if_neg (by omega)]
      rfl
  refine ⟨?_, hcnt, ?_, ?_, ?_⟩
  · rw [harr, copyLoop_length, hacc]
  · intro j hj hocc
    have h0 := copyLoop_getD_inside st.array 0 (List.replicate newSize Slot.empty) j
      (by rw [hacc]; omega) (Nat.zero_le j) (by omega)
    rw [Nat.sub_zero] at h0
    rw [harr, h0, if_neg (by rw [hocc]; exact Bool.false_ne_true)]
  · intro j hj hnone
    have h0 := copyLoop_getD_inside st.array 0 (List.replicate newSize Slot.empty) j
      (by rw [hacc]; omega) (Nat.zero_le j) (by omega)
    rw [Nat.sub_zero] at h0
    rw [harr, h0, if_pos hnone, hrepl j]
  · intro j hj
    rw [harr,
      copyLoop_getD_outside st.array 0 (List.replicate newSize Slot.empty) j
        (Or.inr (by omega)), hrepl j]

/-- C4 witness: rehashing a 5-slot table holding "ab" at 0 and a
tombstone at 1 on the ladder `[5, 13]` gives a 13-slot table, count
unchanged, with "ab" still at 0, the tombstone still at 1 and the
other slots empty. -/
theorem c4_rehash_copy_witness :
    (Slot.occupied "ab" (1 : Nat) :: Slot.tomb :: List.replicate 11 Slot.empty).length = 13 ∧
    (1 : Int) = 1 ∧
    (Slot.occupied "ab" (1 : Nat) :: Slot.tomb :: List.replicate 11 Slot.empty).getD 1 Slot.empty
      = ([Slot.occupied "ab" (1 : Nat), Slot.tomb, Slot.empty, Slot.empty, Slot.empty]).getD 1 Slot.empty := by
  have h := c4_rehash_copy Nat
    { array := [Slot.occupied "ab" (1 : Nat), Slot.tomb, Slot.empty, Slot.empty, Slot.empty], count := 1, sizes := [5, 13] }
    { array := Slot.occupied "ab" (1 : Nat) :: Slot.tomb :: List.replicate 11 Slot.empty, count := 1, sizes := [5, 13] }
    0 13 (by rfl) (by rfl) (by decide) (by rfl)
  exact ⟨h.1, h.2.1, h.2.2.1 1 (by decide) (by rfl)⟩

/-- C4 counterexample: insert "ab", delete it (tombstone at slot 0),
insert "cd", "ef", "gh", then "e" — the last insert triggers growth to
capacity 13, and the new array still holds the tombstone at index 0:
growth does not drop tombstones, it copies every non-`None` slot. -/
theorem c4_rehash_copy_cex :
    ((setItem (initStep Nat [5, 13]) "ab" 1).map (fun s => delItem s "ab")
        |>.bind (fun s => setItem s "cd" 2)
        |>.bind (fun s => setItem s "ef" 3)
        |>.bind (fun s => setItem s "gh" 4)
        |>.bind (fun s => setItem s "e" 5)).map
      (fun s => (s.array.getD 0 Slot.empty, s.array.length, s.count))
      = Except.ok (Slot.tomb, 13, 4) := by rfl

/-- C5: the fixed-domain hash. Mapped over the nine domain keys (in
slot order), `hash` yields exactly the indices 0, 1, 2, 3, 4, 6, 8,
11, 12: pairwise distinct and all within the documented reachable set,
never in the dead set `{5, 7, 9, 10}`. -/
theorem c5_perfect_hash :
    playerStatsKeys.map hashP = [0, 1, 2, 3, 4, 6, 8, 11, 12] ∧
    (playerStatsKeys.map hashP).Pairwise (· ≠ ·) := by
  refine ⟨by rfl, by decide⟩

/-- C6: fixed-domain rejection. For every nonempty key whose computed
index is dead (in `{5, 7, 9, 10}` or above 12) or whose key differs
from the expected domain key of its index, `get`, `set` and `delete`
all fail with `InvalidKey` (the shared `KeyError`); the failing
operations return no new state, so the slots are unchanged (in the
source every raise precedes any mutation). -/
theorem c6_domain_reject (V : Type) (st : PerfState V) (key : String) (v : V)
    (hk : key ≠ "")
    (hbad : hashP key ∈ [5, 7, 9, 10] ∨ 12 < hashP key ∨
        ∀ ek, expectedKeyAt (hashP key) = some ek → key ≠ ek) :
    getItemP st key = Except.error PErr.invalidKey ∧
    setItemP st key v = Except.error PErr.invalidKey ∧
    delItemP st key = Except.error PErr.invalidKey := by
  have hinv : invalidAt (hashP key) key = true := by
    have hlt := hashP_lt key
    rcases hbad with hb | hb | hb
    · generalize hashP key = p at hb ⊢
      fin_cases hb <;> simp [invalidAt]
    · omega
    · generalize hashP key = p at hlt hb ⊢
      interval_cases p <;> simp [invalidAt] <;> exact hb _ rfl
  exact ⟨by unfold getItemP; rw [if_pos hinv],
         by unfold setItemP; rw [if_pos hinv],
         by unfold delItemP; rw [if_pos hinv]⟩

/-- C6 witness: "XX" hashes to the dead index 5 and is rejected by all
three operations. -/
theorem c6_domain_reject_witness :
    getItemP (initPerf Nat) "XX" = Except.error PErr.invalidKey ∧
    setItemP (initPerf Nat) "XX" 0 = Except.error PErr.invalidKey ∧
    delItemP (initPerf Nat) "XX" = Except.error PErr.invalidKey :=
  c6_domain_reject Nat (initPerf Nat) "XX" 0 (by decide) (Or.inl (by decide))

/-- C7: the concrete scenario. With ladder `[5, 13]`, after inserting
"ab", "cd", "ef" the capacity is still 5 and `len()` is 3; after the
fourth insert "gh" (load factor 4/5 over 2/3) the table has grown to
capacity 13 with `len()` equal to 4. -/
theorem c7_growth_scenario :
    (insertAll (initStep Nat [5, 13]) [("ab", 1), ("cd", 2), ("ef", 3)]).map
        (fun s => (s.array.length, s.count)) = Except.ok (5, 3) ∧
    (insertAll (initStep Nat [5, 13]) [("ab", 1), ("cd", 2), ("ef", 3), ("gh", 4)]).map
        (fun s => (s.array.length, s.count)) = Except.ok (13, 4) :=
  ⟨by rfl, by rfl⟩

/-- C8: probe-budget exhaustion. Insert mode exhausting the budget
raises `Full`, and lookup mode exhausting it raises `KeyError` when
the key is not stored. But when the key IS physically present yet
unreachable along its probe path (third conjunct: "fx" is among the
stored keys after growth), the probe falls off the end returning
`None` and `__getitem__` raises `TypeError`, not the `KeyError` the
claim requires. -/
theorem c8_probe_exhaust :
    hashyProbe { array := List.replicate 5 (Slot.occupied "zz" (0 : Nat)), count := 5, sizes := [5, 13] } "ab" true = ProbeRes.fullErr ∧
    hashyProbe { array := List.replicate 5 (Slot.occupied "zz" (0 : Nat)), count := 5, sizes := [5, 13] } "ab" false = ProbeRes.keyErr ∧
    (insertAll (initStep Nat [5, 13]) [("ab", 1), ("cd", 2), ("ef", 3), ("fx", 4)]).map
        (fun s => ((keysStep s).contains (Cell.item "fx"), getItem s "fx"))
      = Except.ok (true, Except.error GetErr.typeErr) :=
  ⟨by rfl, by rfl, by rfl⟩

/-- C9: `__delitem__` scans the raw slot array linearly from index 0
(not the probe path): the slot replaced is the first one, in physical
order, holding the key; it becomes a tombstone; `count` is decremented
unconditionally, even when the key is absent — deleting from a fresh
empty table drives `count` to -1. -/
theorem c9_delete_scan :
    (∀ (V : Type) (st : StepState V) (key : String),
        (delItem st key).count = st.count - 1 ∧
        (delItem st key).array
          = (match (List.range st.array.length).find?
                (fun i => delHit key (st.array.getD i Slot.empty)) with
             | some p => st.array.set p Slot.tomb
             | none => st.array) ∧
        (delItem st key).sizes = st.sizes) ∧
    (delItem (initStep Nat [5, 13]) "zz").count = -1 := by
  refine ⟨fun V st key => ?_, by rfl⟩
  have hfind := delScan_eq_find key st.array 0
  refine ⟨?_, ?_, ?_⟩
  · unfold delItem
    cases delScan key st.array 0 <;> rfl
  · unfold delItem
    rw [hfind]
    cases (List.range st.array.length).find?
        (fun i => delHit key (st.array.getD i Slot.empty)) <;> rfl
  · unfold delItem
    cases delScan key st.array 0 <;> rfl

/-- C10 (amended): enumeration. On the growable table, `keys()` /
`values()` list one entry per non-`None` slot in array order —
including a `Sentinel` entry for every tombstone — so their length is
the number of non-`None` slots, not `count`. On the fixed-domain
table, the loops scan only array positions `0 .. count-1` (the source
iterates `range(len(self))`), returning the occupied slots among those
positions padded with `None`; occupied slots at positions at or above
`count` are missed. -/
theorem c10_enumeration :
    (∀ (V : Type) (st : StepState V),
        keysStep st = st.array.filterMap cellKeyOf ∧
        valuesStep st = st.array.filterMap cellValOf ∧
        (keysStep st).length = (st.array.filter fun s => !s.isNone).length) ∧
    (∀ (V : Type) (st : PerfState V), st.count.toNat ≤ st.array.length →
        keysP st = ((st.array.take st.count.toNat).filterMap pKeyOf).map some
            ++ List.replicate
                (st.array.length - ((st.array.take st.count.toNat).filterMap pKeyOf).length)
                none ∧
        valuesP st = ((st.array.take st.count.toNat).filterMap pValOf).map some
            ++ List.replicate
                (st.array.length - ((st.array.take st.count.toNat).filterMap pValOf).length)
                none) :=
  ⟨fun _ st => ⟨keysStep_eq_filterMap st, valuesStep_eq_filterMap st,
      by rw [keysStep_eq_filterMap]; exact length_filterMap_cellKeyOf st.array⟩,
   fun _ st hc => ⟨keysP_spec st hc, valuesP_spec st hc⟩⟩

/-- C10 witness. -/
theorem c10_enumeration_witness :
    keysP { array := (List.replicate 13 PSlot.empty).set 12 (PSlot.occupied "HEIGHT" (7 : Nat)), count := 1 } = List.replicate 13 none ∧
    valuesP { array := (List.replicate 13 PSlot.empty).set 12 (PSlot.occupied "HEIGHT" (7 : Nat)), count := 1 } = List.replicate 13 none :=
  (c10_enumeration.2 Nat
    { array := (List.replicate 13 PSlot.empty).set 12 (PSlot.occupied "HEIGHT" (7 : Nat)), count := 1 } (by decide))

/-- C10 counterexample: after insert-then-delete of "ab" the growable
table's `keys()` has one (sentinel) entry while `count` is 0 — the
enumeration is not "exactly the occupied slots with size `count`".
And after storing HEIGHT (slot 12, `count` 1) the fixed-domain table's
`keys()` contains no key at all. -/
theorem c10_enumeration_cex :
    ((setItem (initStep Nat [5, 13]) "ab" 1).map (fun s =>
        let s2 := delItem s "ab"
        ((keysStep s2).length, s2.count)) = Except.ok (1, 0)) ∧
    ((setItemP (initPerf Nat) "HEIGHT" 7).map (fun s => ((keysP s).filterMap id, s.count))
        = Except.ok (([] : List String), 1)) ∧
    (1 : Nat) ≠ 0 :=
  ⟨by rfl, by rfl, by decide⟩

end FootballTables
